import Mathlib

/-!
Verification of the configuration-option module (`mkdocs/config/config_options.py`)
against its natural-language specification.

The Python data model is shallowly embedded: raw configuration values become the
inductive `Value` (string-keyed mappings are association lists in insertion
order, as Python dicts are), fallible validators become functions into
`Except String`, and in-place mutation of the raw document becomes explicit
state passing (functions return the post-call raw value alongside the result).
-/

/-- A raw configuration value, mirroring the Python values the module handles:
`None`, `bool`, `int`, `str`, `list`, and string-keyed `dict` (kept in
insertion order, as Python dicts are). -/
inductive Value where
  | none : Value
  | bool : Bool → Value
  | int : Int → Value
  | str : String → Value
  | list : List Value → Value
  | dict : List (String × Value) → Value

/-- `type(value)` as Python prints it in error messages. -/
def pyType : Value → String
  | .none => "<class 'NoneType'>"
  | .bool _ => "<class 'bool'>"
  | .int _ => "<class 'int'>"
  | .str _ => "<class 'str'>"
  | .list _ => "<class 'list'>"
  | .dict _ => "<class 'dict'>"

/-- Python truthiness (`if value:`) for the embedded values. -/
def pyTruthy : Value → Bool
  | .none => false
  | .bool b => b
  | .int n => n != 0
  | .str s => s ≠ ""
  | .list xs => !xs.isEmpty
  | .dict d => !d.isEmpty

/-- `len(value)` for the sized values (`None` result models a `TypeError`). -/
def pyLen : Value → Option Nat
  | .str s => some s.length
  | .list xs => some xs.length
  | .dict d => some d.length
  | _ => Option.none

mutual
/-- Python `repr(value)` (also `str` for non-string values), as used in the
module's error messages.  String escaping inside `repr` of a `str` is not
reproduced (the strings in the claims contain no quotes). -/
def pyRepr : Value → String
  | .none => "None"
  | .bool true => "True"
  | .bool false => "False"
  | .int n => toString n
  | .str s => "'" ++ s ++ "'"
  | .list xs => "[" ++ pyReprList xs ++ "]"
  | .dict d => "\x7b" ++ pyReprDict d ++ "\x7d"

/-- Comma-separated `repr`s of list elements. -/
def pyReprList : List Value → String
  | [] => ""
  | [x] => pyRepr x
  | x :: xs => pyRepr x ++ ", " ++ pyReprList xs

/-- Comma-separated `repr`s of dict entries. -/
def pyReprDict : List (String × Value) → String
  | [] => ""
  | [(k, v)] => "'" ++ k ++ "': " ++ pyRepr v
  | (k, v) :: rest => "'" ++ k ++ "': " ++ pyRepr v ++ ", " ++ pyReprDict rest
end

/-- Python `str(value)`: identical to `repr` except on strings. -/
def pyStr : Value → String
  | .str s => s
  | v => pyRepr v

mutual
/-- Python `==` on the embedded values.  `True == 1` cross-equality of `bool`
and `int` is reproduced; dict equality is positional (the raw documents the
claims compare keep one order). -/
def valueEq : Value → Value → Bool
  | .none, .none => true
  | .bool a, .bool b => a == b
  | .bool a, .int b => (if a then (1 : Int) else 0) == b
  | .int a, .bool b => a == (if b then (1 : Int) else 0)
  | .int a, .int b => a == b
  | .str a, .str b => a == b
  | .list a, .list b => valueEqList a b
  | .dict a, .dict b => valueEqDict a b
  | _, _ => false

/-- Elementwise `==` on lists of values. -/
def valueEqList : List Value → List Value → Bool
  | [], [] => true
  | a :: as', b :: bs' => valueEq a b && valueEqList as' bs'
  | _, _ => false

/-- Entrywise `==` on dict entries. -/
def valueEqDict : List (String × Value) → List (String × Value) → Bool
  | [], [] => true
  | (ka, va) :: as', (kb, vb) :: bs' => ka == kb && valueEq va vb && valueEqDict as' bs'
  | _, _ => false
end

/-- `d.get(k)` / `d[k]` on a raw mapping: a missing key and an explicit `None`
value are both observed as `None` by the module's `is not None` tests. -/
def dictGet : List (String × Value) → String → Value
  | [], _ => .none
  | (k', v') :: rest, k => if k' = k then v' else dictGet rest k

/-- `d[k] = v` on a raw mapping: update in place, or append (Python dicts keep
insertion order). -/
def dictSet : List (String × Value) → String → Value → List (String × Value)
  | [], k, v => [(k, v)]
  | (k', v') :: rest, k, v => if k' = k then (k, v) :: rest else (k', v') :: dictSet rest k v

/-- `d.pop(k)` (the removal part; the value is read with `dictGet`). -/
def dictErase : List (String × Value) → String → List (String × Value)
  | [], _ => []
  | (k', v') :: rest, k => if k' = k then rest else (k', v') :: dictErase rest k

/-- `d.popitem()`: removes and returns the last-inserted entry; `none` models
the `KeyError` raised on an empty dict. -/
def popLast : List (String × Value) → Option ((String × Value) × List (String × Value))
  | [] => Option.none
  | [e] => some (e, [])
  | e :: rest => (popLast rest).map (fun (x, rest') => (x, e :: rest'))

/-! ## `OptionallyRequired.validate`

`OptionallyRequired` holds a `default` value (`Value.none` models Python
`None`, i.e. "no default") and a `required` flag.  `validate` implements:

    if value is None:
        if self.default is not None:
            value = self.default
        elif not self.required:
            return None
        elif self.required:
            raise ValidationError("Required configuration not provided.")
    return self.run_validation(value)

The subclass's `run_validation` is a parameter.  Alongside the result, the
embedding returns the list of arguments `run_validation` was invoked with, so
that "coercion is skipped" is an observable fact. -/

def OptionallyRequired.validateWithCalls (default : Value) (required : Bool)
    (run : Value → Except String Value) (value : Value) :
    Except String Value × List Value :=
  match value with
  | .none =>
    match default with
    | .none =>
      if !required then (.ok .none, [])
      else (.error "Required configuration not provided.", [])
    | d => (run d, [d])
  | v => (run v, [v])

/-- `OptionallyRequired.validate` (the returned/raised result only). -/
def OptionallyRequired.validate (default : Value) (required : Bool)
    (run : Value → Except String Value) (value : Value) : Except String Value :=
  (OptionallyRequired.validateWithCalls default required run value).1

/-! ## `Type.run_validation`

    def run_validation(self, value):
        if not isinstance(value, self._type):
            msg = f"Expected type: {self._type} but received: {type(value)}"
        elif self.length is not None and len(value) != self.length:
            msg = (...)
        else:
            return value
        raise ValidationError(msg)
-/

/-- The Python types used as `Type(...)` arguments in the module. -/
inductive TypeTag where
  | int | str | bool | list | dict

/-- `isinstance(value, tag)`; note Python's `bool` is a subclass of `int`. -/
def typeMatches : TypeTag → Value → Bool
  | .int, .int _ => true
  | .int, .bool _ => true
  | .str, .str _ => true
  | .bool, .bool _ => true
  | .list, .list _ => true
  | .dict, .dict _ => true
  | _, _ => false

/-- `f"{self._type}"` as Python prints a class. -/
def typeName : TypeTag → String
  | .int => "<class 'int'>"
  | .str => "<class 'str'>"
  | .bool => "<class 'bool'>"
  | .list => "<class 'list'>"
  | .dict => "<class 'dict'>"

/-- `Type.run_validation`.  A `length` set on an unsized value models the
uncaught `TypeError` from `len()` as an error. -/
def typeRunValidation (tag : TypeTag) (length : Option Nat) (value : Value) :
    Except String Value :=
  if !typeMatches tag value then
    .error ("Expected type: " ++ typeName tag ++ " but received: " ++ pyType value)
  else
    match length with
    | Option.none => .ok value
    | some n =>
      match pyLen value with
      | some m =>
        if m ≠ n then
          .error ("Expected type: " ++ typeName tag ++ " with length " ++ toString n
            ++ " but received: " ++ pyRepr value ++ " with length " ++ toString m)
        else .ok value
      | Option.none => .error "TypeError: object has no len()"

/-- `Type(int).run_validation`. -/
def typeIntRun : Value → Except String Value := typeRunValidation .int Option.none

/-- `Type(str).run_validation`. -/
def typeStrRun : Value → Except String Value := typeRunValidation .str Option.none

/-! ## `ListOfItems.run_validation`

    if value is None:
        if self.required or self.default is None:
            raise ValidationError("Required configuration not provided.")
        value = self.default
    if not isinstance(value, list):
        raise ValidationError(f'Expected a list of items, but a {type(value)} was given.')
    if not value:  # Optimization for empty list
        return value
    ... per-item loop: fake_config[key] = self.option_type.run_validation(fake_config[key])
    return [fake_config[k] for k in fake_keys]

The per-item loop invokes the item option's `run_validation` directly on each
raw item, in order; a raised error aborts the loop (and the whole call).  The
item option's `pre_validation`/`post_validation` hooks are inherited no-ops
for the item options the claims use (`Type`, `FilesystemObject` aside), so the
loop over `run_validation` determines the observable behaviour modelled here.
-/

/-- The per-item loop: validate each raw item, aborting on the first error. -/
def runItems (run : Value → Except String Value) : List Value → Except String (List Value)
  | [] => .ok []
  | x :: xs =>
    match run x with
    | .error e => .error e
    | .ok y =>
      match runItems run xs with
      | .error e => .error e
      | .ok ys => .ok (y :: ys)

/-- The arguments the per-item loop passes to the item option's
`run_validation`, in order (the loop stops after a failing item). -/
def itemCalls (run : Value → Except String Value) : List Value → List Value
  | [] => []
  | x :: xs =>
    x :: match run x with
    | .ok _ => itemCalls run xs
    | .error _ => []

/-- `ListOfItems.run_validation`. -/
def listRunValidation (required : Bool) (default : Value)
    (run : Value → Except String Value) (value : Value) : Except String (List Value) :=
  let resolved : Except String Value :=
    match value with
    | .none =>
      if required then .error "Required configuration not provided."
      else match default with
        | .none => .error "Required configuration not provided."
        | d => .ok d
    | v => .ok v
  match resolved with
  | .error e => .error e
  | .ok v =>
    match v with
    | .list [] => .ok []
    | .list xs => runItems run xs
    | other => .error ("Expected a list of items, but a " ++ pyType other ++ " was given.")

/-- The arguments `ListOfItems.run_validation` passes to the item option's
`run_validation` over the course of one call. -/
def listRunCalls (required : Bool) (default : Value)
    (run : Value → Except String Value) (value : Value) : List Value :=
  let resolved : Except String Value :=
    match value with
    | .none =>
      if required then .error "Required configuration not provided."
      else match default with
        | .none => .error "Required configuration not provided."
        | d => .ok d
    | v => .ok v
  match resolved with
  | .error _ => []
  | .ok v =>
    match v with
    | .list xs => itemCalls run xs
    | _ => []

/-! ## Claims about `OptionallyRequired.validate` and `ListOfItems` -/

/-- C1 (counterexample): the claim says an absent raw value with a non-`None`
default is substituted *without* invoking `run_validation`.  With
`Type(int)` as the subclass and the (string) default `"a"`, the claim predicts
`validate(None) == "a"`; the code instead passes the default through
`run_validation`, which rejects it with a type error. -/
theorem c1_counterexample :
    (OptionallyRequired.validateWithCalls (.str "a") false typeIntRun .none).1
        = .error "Expected type: <class 'int'> but received: <class 'str'>"
      ∧ (OptionallyRequired.validateWithCalls (.str "a") false typeIntRun .none).1
        ≠ .ok (.str "a")
      ∧ (OptionallyRequired.validateWithCalls (.str "a") false typeIntRun .none).2
        = [.str "a"] :=
  ⟨rfl, fun h => Except.noConfusion h, rfl⟩

/-- C1 (amended): on an absent (`None`) raw value, `OptionallyRequired.validate`
substitutes a non-`None` default and passes it through the subclass's
`run_validation` (returning that result); with no default it fails with
"Required configuration not provided." when required, and returns `None`
without invoking `run_validation` when not required. -/
theorem c1_claim (default : Value) (required : Bool)
    (run : Value → Except String Value) :
    (default ≠ .none →
        OptionallyRequired.validateWithCalls default required run .none
          = (run default, [default]))
      ∧ (default = .none → required = true →
        OptionallyRequired.validateWithCalls default required run .none
          = (.error "Required configuration not provided.", []))
      ∧ (default = .none → required = false →
        OptionallyRequired.validateWithCalls default required run .none
          = (.ok .none, [])) := by
  refine ⟨fun hd => ?_, fun hd hr => ?_, fun hd hr => ?_⟩
  · cases default with
    | none => exact absurd rfl hd
    | bool b => rfl
    | int n => rfl
    | str s => rfl
    | list xs => rfl
    | dict d => rfl
  · subst hd hr; rfl
  · subst hd hr; rfl

/-- C1 (witness for the amended theorem): with default `"mkdocs"` and
`Type(str)`, validating `None` coerces the default through `run_validation`;
the no-default branches behave as stated. -/
theorem c1_witness :
    OptionallyRequired.validateWithCalls (.str "mkdocs") false typeStrRun .none
        = (typeStrRun (.str "mkdocs"), [.str "mkdocs"])
      ∧ OptionallyRequired.validateWithCalls .none true typeStrRun .none
        = (.error "Required configuration not provided.", [])
      ∧ OptionallyRequired.validateWithCalls .none false typeStrRun .none
        = (.ok .none, []) :=
  ⟨(c1_claim (.str "mkdocs") false typeStrRun).1 (fun h => Value.noConfusion h),
   (c1_claim .none true typeStrRun).2.1 rfl rfl,
   (c1_claim .none false typeStrRun).2.2 rfl rfl⟩

/-- C2 (counterexample): the claim says `run_validation` is only ever invoked
with a non-`None` raw value, including along the list-item lifecycle.  But
`ListOfItems.run_validation` passes each raw item directly to the item
option's `run_validation` ("Specifically not running `validate` to avoid the
OptionallyRequired effect"), so a `None` item is passed as `None`:
on the raw list `[1, None]` the item option receives `None`. -/
theorem c2_counterexample :
    Value.none ∈ listRunCalls false .none typeIntRun (.list [.int 1, .none]) := by
  have h : listRunCalls false .none typeIntRun (.list [.int 1, .none])
      = [.int 1, .none] := rfl
  rw [h]
  exact List.mem_cons_of_mem _ (List.mem_singleton.mpr rfl)

/-- C2 (amended): `OptionallyRequired.validate` invokes `run_validation` only
with non-`None` arguments; the list-item lifecycle driven by
`ListOfItems.run_validation` passes the raw items themselves to the item
option's `run_validation`, so it preserves the invariant only when no raw item
is `None`. -/
theorem c2_claim (default : Value) (required : Bool)
    (run : Value → Except String Value) (value : Value) :
    (∀ c ∈ (OptionallyRequired.validateWithCalls default required run value).2,
        c ≠ .none)
      ∧ (∀ xs, ∀ c ∈ listRunCalls required default run (.list xs), c ∈ xs) := by
  constructor
  · intro c hc
    cases value with
    | none =>
      cases default with
      | none =>
        cases required <;> simp [OptionallyRequired.validateWithCalls] at hc
      | bool b => simp [OptionallyRequired.validateWithCalls] at hc; simp [hc]
      | int n => simp [OptionallyRequired.validateWithCalls] at hc; simp [hc]
      | str s => simp [OptionallyRequired.validateWithCalls] at hc; simp [hc]
      | list xs => simp [OptionallyRequired.validateWithCalls] at hc; simp [hc]
      | dict d => simp [OptionallyRequired.validateWithCalls] at hc; simp [hc]
    | bool b => simp [OptionallyRequired.validateWithCalls] at hc; simp [hc]
    | int n => simp [OptionallyRequired.validateWithCalls] at hc; simp [hc]
    | str s => simp [OptionallyRequired.validateWithCalls] at hc; simp [hc]
    | list xs => simp [OptionallyRequired.validateWithCalls] at hc; simp [hc]
    | dict d => simp [OptionallyRequired.validateWithCalls] at hc; simp [hc]
  · intro xs c hc
    have aux : ∀ ys, ∀ c ∈ itemCalls run ys, c ∈ ys := by
      intro ys
      induction ys with
      | nil => intro c hc; simp [itemCalls] at hc
      | cons y ys ih =>
        intro c hc
        simp only [itemCalls] at hc
        rcases List.mem_cons.mp hc with h | h
        · exact h ▸ List.mem_cons_self _ _
        · cases hr : run y with
          | ok v => rw [hr] at h; exact List.mem_cons_of_mem _ (ih c h)
          | error e => rw [hr] at h; simp at h
    cases xs with
    | nil => simp [listRunCalls, itemCalls] at hc
    | cons x xs' => exact aux _ c hc

/-- C2 (witness for the amended theorem): a non-`None` value invoked through
`validate` is non-`None`, and an item observed by the list lifecycle on
`[2, 3]` is one of the raw items. -/
theorem c2_witness :
    Value.int 2 ≠ Value.none
      ∧ Value.int 3 ∈ ([Value.int 2, Value.int 3] : List Value) :=
  ⟨(c2_claim .none false typeIntRun (.int 2)).1 (.int 2)
      (by have h : (OptionallyRequired.validateWithCalls .none false typeIntRun
            (.int 2)).2 = [.int 2] := rfl
          rw [h]; exact List.mem_singleton.mpr rfl),
   (c2_claim .none false typeIntRun (.int 2)).2 [.int 2, .int 3] (.int 3)
      (by have h : listRunCalls false .none typeIntRun (.list [.int 2, .int 3])
            = [.int 2, .int 3] := rfl
          rw [h]; exact List.mem_cons_of_mem _ (List.mem_singleton.mpr rfl))⟩

/-- C3 (counterexample): on `ListOfItems(Type(int))` applied to `[1, "a", 3]`,
the claim predicts an error scoped to the second item only with items 0 and 2
still normalizing.  The code has no per-item error handling: the second item's
plain type error (no item position in it) aborts the whole call, no normalized
list is produced, and the third item is never even passed to the item
option (`listRunCalls` stops at the failing item). -/
theorem c3_counterexample :
    listRunValidation false .none typeIntRun (.list [.int 1, .str "a", .int 3])
        = .error "Expected type: <class 'int'> but received: <class 'str'>"
      ∧ listRunCalls false .none typeIntRun (.list [.int 1, .str "a", .int 3])
        = [.int 1, .str "a"] :=
  ⟨rfl, rfl⟩

/-- C3 (amended): for `ListOfItems(Type(int))` on `[1, "a", 3]` — and in
general when the items before a failing item all validate — validation fails
with exactly the failing item's own error (not rescoped to its position), the
failure aborts the call so no normalized list is produced, and the items after
the failing one are never validated: the item option is invoked on the
prefix up to and including the failing item only. -/
theorem c3_claim (run : Value → Except String Value) (default : Value)
    (pre post : List Value) (bad : Value) (e : String)
    (hpre : ∀ x ∈ pre, ∃ y, run x = .ok y) (hbad : run bad = .error e) :
    listRunValidation false default run (.list (pre ++ bad :: post)) = .error e
      ∧ listRunCalls false default run (.list (pre ++ bad :: post))
        = pre ++ [bad] := by
  have hitems : ∀ pre, (∀ x ∈ pre, ∃ y, run x = .ok y) →
      runItems run (pre ++ bad :: post) = .error e
        ∧ itemCalls run (pre ++ bad :: post) = pre ++ [bad] := by
    intro pre hpre
    induction pre with
    | nil => simp [runItems, itemCalls, hbad]
    | cons x rest ih =>
      obtain ⟨y, hy⟩ := hpre x (List.mem_cons_self _ _)
      have ihr := ih (fun z hz => hpre z (List.mem_cons_of_mem _ hz))
      simp only [List.cons_append, runItems, itemCalls, hy, List.append_eq]
      rw [ihr.1, ihr.2]
      simp
  have h := hitems pre hpre
  have hne : pre ++ bad :: post ≠ [] := by simp
  constructor
  · show listRunValidation false default run (.list (pre ++ bad :: post)) = .error e
    cases hx : pre ++ bad :: post with
    | nil => exact absurd hx hne
    | cons z zs =>
      simp only [listRunValidation, hx]
      rw [← hx, h.1]
  · cases hx : pre ++ bad :: post with
    | nil => exact absurd hx hne
    | cons z zs =>
      simp only [listRunCalls, hx]
      rw [← hx, h.2]

/-- C3 (witness for the amended theorem): the concrete instance
`ListOfItems(Type(int))` on `[1, "a", 3]`. -/
theorem c3_witness :
    listRunValidation false .none typeIntRun (.list ([.int 1] ++ .str "a" :: [.int 3]))
        = .error "Expected type: <class 'int'> but received: <class 'str'>"
      ∧ listRunCalls false .none typeIntRun (.list ([.int 1] ++ .str "a" :: [.int 3]))
        = [.int 1] ++ [.str "a"] :=
  c3_claim typeIntRun .none [.int 1] [.int 3] (.str "a")
    "Expected type: <class 'int'> but received: <class 'str'>"
    (by intro x hx
        rw [List.mem_singleton.mp hx]
        exact ⟨.int 1, rfl⟩)
    rfl

/-- C5: `ListOfItems.run_validation` (a) short-circuits an empty raw list to an
immediate empty result, with the item option never invoked; (b) rejects a
non-list, non-`None` raw value with a hard error naming the received Python
type; and (c) on success over a raw list returns a normalized list of the same
length. -/
theorem c5_claim (required : Bool) (default : Value)
    (run : Value → Except String Value) (v : Value) (xs ys : List Value)
    (hv : ∀ zs, v ≠ .list zs) (hvn : v ≠ .none)
    (hok : listRunValidation required default run (.list xs) = .ok ys) :
    listRunValidation required default run (.list []) = .ok []
      ∧ listRunCalls required default run (.list []) = []
      ∧ listRunValidation required default run v
        = .error ("Expected a list of items, but a " ++ pyType v ++ " was given.")
      ∧ ys.length = xs.length := by
  refine ⟨rfl, rfl, ?_, ?_⟩
  · cases v with
    | none => exact absurd rfl hvn
    | bool b => rfl
    | int n => rfl
    | str s => rfl
    | list zs => exact absurd rfl (hv zs)
    | dict d => rfl
  · have hlen : ∀ xs ys, runItems run xs = .ok ys → ys.length = xs.length := by
      intro xs
      induction xs with
      | nil => intro ys h; simp [runItems] at h; simp [← h]
      | cons x rest ih =>
        intro ys h
        simp only [runItems] at h
        cases hr : run x with
        | error e => rw [hr] at h; exact absurd h (by simp)
        | ok y =>
          rw [hr] at h
          cases hrest : runItems run rest with
          | error e => rw [hrest] at h; exact absurd h (by simp)
          | ok ys' =>
            rw [hrest] at h
            have hys : y :: ys' = ys := by simpa using h
            simp [← hys, ih ys' hrest]
    cases xs with
    | nil =>
      have : ys = [] := by simpa [listRunValidation] using hok
      simp [this]
    | cons x rest =>
      have : runItems run (x :: rest) = .ok ys := by
        simpa [listRunValidation] using hok
      exact hlen _ _ this

/-- C5 (witness): empty list short-circuits, an `int` raw value is rejected
naming `<class 'int'>`, and `[7, 8]` normalizes to a list of length 2. -/
theorem c5_witness :
    listRunValidation false .none typeIntRun (.list []) = .ok []
      ∧ listRunCalls false .none typeIntRun (.list []) = []
      ∧ listRunValidation false .none typeIntRun (.int 5)
        = .error ("Expected a list of items, but a " ++ pyType (.int 5) ++ " was given.")
      ∧ ([Value.int 7, Value.int 8] : List Value).length
        = ([Value.int 7, Value.int 8] : List Value).length :=
  c5_claim false .none typeIntRun (.int 5) [.int 7, .int 8] [.int 7, .int 8]
    (fun _ h => Value.noConfusion h) (fun h => Value.noConfusion h) rfl

/-! ## `Deprecated`

    def __init__(self, moved_to=None, message=None, removed=False, option_type=None):
        ...
        if not message:
            if removed:
                message = "The configuration option '{}' was removed from MkDocs."
            else:
                message = ("The configuration option '{}' has been deprecated and "
                           "will be removed in a future release of MkDocs.")
            if moved_to:
                message += f" Use '{moved_to}' instead."

    def pre_validation(self, config, key_name):
        self.option.pre_validation(config, key_name)       # no-op for the default wrapped option
        if config.get(key_name) is not None:
            if self.removed:
                raise ValidationError(self.message.format(key_name))
            self.warnings.append(self.message.format(key_name))
            if self.moved_to is not None:
                *parent_keys, target_key = self.moved_to.split('.')
                target = config
                for key in parent_keys:
                    if target.get(key) is None:
                        target[key] = {}
                    target = target[key]
                    if not isinstance(target, dict):
                        return                              # abort, leave the value in place
                target[target_key] = config.pop(key_name)

A mapping level is only ever created at an absent (or explicitly `None`) key,
and a freshly created level is a dict, so an abort can only happen at a
pre-existing non-dict level, before any level has been created; the functional
model below therefore returns the document unchanged on abort, exactly as the
in-place code leaves it. -/

/-- The opening brace character (written via its code point). -/
def braceOpen : Char := Char.ofNat 123

/-- The closing brace character. -/
def braceClose : Char := Char.ofNat 125

/-- `template.format(arg)` for the templates the module builds: the first
`"\x7b\x7d"` occurrence is replaced by `arg`. -/
def formatChars (arg : List Char) : List Char → List Char
  | [] => []
  | c :: rest =>
    if c = braceOpen then
      match rest with
      | c' :: rest' => if c' = braceClose then arg ++ rest' else c :: formatChars arg rest
      | [] => [c]
    else c :: formatChars arg rest

/-- `self.message.format(key_name)`. -/
def pyFormat (template arg : String) : String :=
  String.mk (formatChars arg.data template.data)

/-- `s.split(sep)` for a one-character separator (Python `str.split`). -/
def splitChar (sep : Char) : List Char → List (List Char)
  | [] => [[]]
  | c :: rest =>
    if c = sep then [] :: splitChar sep rest
    else
      match splitChar sep rest with
      | [] => [[c]]
      | g :: gs => (c :: g) :: gs

/-- The `Deprecated` option's constructor-time state. -/
structure DeprecatedOpt where
  moved_to : Option String
  message : String
  removed : Bool

/-- `Deprecated.__init__` with no explicit `message` (the claims use the
default message). -/
def mkDeprecated (moved_to : Option String) (removed : Bool) : DeprecatedOpt :=
  let base :=
    if removed then "The configuration option '\x7b\x7d' was removed from MkDocs."
    else "The configuration option '\x7b\x7d' has been deprecated and will be removed in a future release of MkDocs."
  let message :=
    match moved_to with
    | some mt => base ++ " Use '" ++ mt ++ "' instead."
    | Option.none => base
  ⟨moved_to, message, removed⟩

/-- The nested move: descend along `parent_keys` from the top-level document,
creating an empty mapping at an absent (or `None`) level, and set
`target_key` at the end; `none` models the silent abort at a pre-existing
non-dict level (the document is then left unchanged). -/
def moveInto (d : List (String × Value)) (parentKeys : List String)
    (targetKey : String) (v : Value) : Option (List (String × Value)) :=
  match parentKeys with
  | [] => some (dictSet d targetKey v)
  | k :: rest =>
    let child := dictGet d k
    let child' := match child with
      | .none => Value.dict []
      | c => c
    match child' with
    | .dict cd => (moveInto cd rest targetKey v).map (fun cd' => dictSet d k (.dict cd'))
    | _ => Option.none

/-- `Deprecated.pre_validation`: returns the raw document after the call plus
the warnings appended during it (the wrapped option is the default
`BaseConfigOption`, whose own `pre_validation` hook is a no-op). -/
def deprecatedPreValidation (o : DeprecatedOpt) (doc : List (String × Value))
    (keyName : String) : Except String (List (String × Value) × List String) :=
  match dictGet doc keyName with
  | .none => .ok (doc, [])
  | _ =>
    if o.removed then .error (pyFormat o.message keyName)
    else
      let ws := [pyFormat o.message keyName]
      match o.moved_to with
      | Option.none => .ok (doc, ws)
      | some mt =>
        let parts := (splitChar '.' mt.data).map String.mk
        let parentKeys := parts.dropLast
        let targetKey := parts.getLastD ""
        match parentKeys with
        | [] => .ok (dictSet (dictErase doc keyName) targetKey (dictGet doc keyName), ws)
        | _ :: _ =>
          match moveInto doc parentKeys targetKey (dictGet doc keyName) with
          | Option.none => .ok (doc, ws)
          | some d' => .ok (dictErase d' keyName, ws)

/-- C6: `Deprecated.pre_validation` on a document where the deprecated key has
a non-`None` raw value: (a) an option marked `removed` fails hard with the
formatted message; (b) otherwise exactly one warning (the formatted message)
is emitted; (c) with `moved_to="new.key"`, the document `{"old_key": 5}`
becomes `{"new": {"key": 5}}` with `old_key` removed; (d) if an intermediate
level of the replacement path is a pre-existing non-mapping, the move is
aborted silently and the document is left unchanged (the value stays in
place). -/
theorem c6_claim (o : DeprecatedOpt) (doc : List (String × Value))
    (keyName : String) (hv : dictGet doc keyName ≠ .none) :
    (o.removed = true →
        deprecatedPreValidation o doc keyName = .error (pyFormat o.message keyName))
      ∧ (o.removed = false → ∃ d',
        deprecatedPreValidation o doc keyName = .ok (d', [pyFormat o.message keyName]))
      ∧ deprecatedPreValidation (mkDeprecated (some "new.key") false)
          [("old_key", .int 5)] "old_key"
        = .ok ([("new", .dict [("key", .int 5)])],
            ["The configuration option 'old_key' has been deprecated and will be removed in a future release of MkDocs. Use 'new.key' instead."])
      ∧ deprecatedPreValidation (mkDeprecated (some "new.key") false)
          [("old_key", .int 5), ("new", .int 7)] "old_key"
        = .ok ([("old_key", .int 5), ("new", .int 7)],
            ["The configuration option 'old_key' has been deprecated and will be removed in a future release of MkDocs. Use 'new.key' instead."]) := by
  refine ⟨fun hr => ?_, fun hr => ?_, rfl, rfl⟩
  · cases hg : dictGet doc keyName with
    | none => exact absurd hg hv
    | bool b => simp [deprecatedPreValidation, hg, hr]
    | int n => simp [deprecatedPreValidation, hg, hr]
    | str s => simp [deprecatedPreValidation, hg, hr]
    | list xs => simp [deprecatedPreValidation, hg, hr]
    | dict d => simp [deprecatedPreValidation, hg, hr]
  · cases hg : dictGet doc keyName with
    | none => exact absurd hg hv
    | bool b =>
      simp only [deprecatedPreValidation, hg, hr, Bool.false_eq_true, if_false]
      cases o.moved_to with
      | none => exact ⟨doc, rfl⟩
      | some mt =>
        simp only
        cases hpk : (((splitChar '.' mt.data).map String.mk).dropLast) with
        | nil => exact ⟨_, rfl⟩
        | cons p ps =>
          cases hm : moveInto doc (p :: ps) ((((splitChar '.' mt.data).map String.mk)).getLastD "") (.bool b) with
          | none => exact ⟨doc, rfl⟩
          | some d' => exact ⟨dictErase d' keyName, rfl⟩
    | int n =>
      simp only [deprecatedPreValidation, hg, hr, Bool.false_eq_true, if_false]
      cases o.moved_to with
      | none => exact ⟨doc, rfl⟩
      | some mt =>
        simp only
        cases hpk : (((splitChar '.' mt.data).map String.mk).dropLast) with
        | nil => exact ⟨_, rfl⟩
        | cons p ps =>
          cases hm : moveInto doc (p :: ps) ((((splitChar '.' mt.data).map String.mk)).getLastD "") (.int n) with
          | none => exact ⟨doc, rfl⟩
          | some d' => exact ⟨dictErase d' keyName, rfl⟩
    | str s =>
      simp only [deprecatedPreValidation, hg, hr, Bool.false_eq_true, if_false]
      cases o.moved_to with
      | none => exact ⟨doc, rfl⟩
      | some mt =>
        simp only
        cases hpk : (((splitChar '.' mt.data).map String.mk).dropLast) with
        | nil => exact ⟨_, rfl⟩
        | cons p ps =>
          cases hm : moveInto doc (p :: ps) ((((splitChar '.' mt.data).map String.mk)).getLastD "") (.str s) with
          | none => exact ⟨doc, rfl⟩
          | some d' => exact ⟨dictErase d' keyName, rfl⟩
    | list xs =>
      simp only [deprecatedPreValidation, hg, hr, Bool.false_eq_true, if_false]
      cases o.moved_to with
      | none => exact ⟨doc, rfl⟩
      | some mt =>
        simp only
        cases hpk : (((splitChar '.' mt.data).map String.mk).dropLast) with
        | nil => exact ⟨_, rfl⟩
        | cons p ps =>
          cases hm : moveInto doc (p :: ps) ((((splitChar '.' mt.data).map String.mk)).getLastD "") (.list xs) with
          | none => exact ⟨doc, rfl⟩
          | some d' => exact ⟨dictErase d' keyName, rfl⟩
    | dict d =>
      simp only [deprecatedPreValidation, hg, hr, Bool.false_eq_true, if_false]
      cases o.moved_to with
      | none => exact ⟨doc, rfl⟩
      | some mt =>
        simp only
        cases hpk : (((splitChar '.' mt.data).map String.mk).dropLast) with
        | nil => exact ⟨_, rfl⟩
        | cons p ps =>
          cases hm : moveInto doc (p :: ps) ((((splitChar '.' mt.data).map String.mk)).getLastD "") (.dict d) with
          | none => exact ⟨doc, rfl⟩
          | some d' => exact ⟨dictErase d' keyName, rfl⟩

/-- C6 (witness): the removed and non-removed branches at the concrete
document `{"old_key": 5}`. -/
theorem c6_witness :
    deprecatedPreValidation (mkDeprecated Option.none true) [("old_key", .int 5)] "old_key"
        = .error (pyFormat (mkDeprecated Option.none true).message "old_key")
      ∧ ∃ d', deprecatedPreValidation (mkDeprecated Option.none false)
          [("old_key", .int 5)] "old_key"
        = .ok (d', [pyFormat (mkDeprecated Option.none false).message "old_key"]) :=
  ⟨(c6_claim (mkDeprecated Option.none true) [("old_key", .int 5)] "old_key"
      (by simp [dictGet])).1 rfl,
   (c6_claim (mkDeprecated Option.none false) [("old_key", .int 5)] "old_key"
      (by simp [dictGet])).2.1 rfl⟩

/-! ## `MarkdownExtensions.run_validation` and `Plugins.run_validation`

Both accept a list or a dict.  Iterating a *dict* raw value reads it without
modification; iterating a *list* raw value pops each one-item dict entry with
`item.popitem()`, which mutates that dict inside the raw document (it is left
empty).  The embeddings below return the post-call raw value alongside the
result.  External collaborators are parameters: `registerOk` stands for
`markdown.Markdown().registerExtensions` accepting an extension name (its
failure message's traceback text is not reproduced), and `load` stands for
`Plugins.load_plugin`.  `reduceList` models `utils.reduce_list` (defined
outside this module): duplicates removed, first occurrences kept, order
preserved. -/

/-- `utils.reduce_list`. -/
def reduceList (xs : List String) : List String :=
  xs.foldl (fun acc x => if acc.contains x then acc else acc ++ [x]) []

/-- `MarkdownExtensions.validate_ext_cfg`:

    if not isinstance(ext, str): raise ...
    if not cfg: return
    if not isinstance(cfg, dict): raise ...
    self.configdata[ext] = cfg
-/
def validateExtCfg (configdata : List (String × Value)) (ext cfg : Value) :
    Except String (List (String × Value)) :=
  match ext with
  | .str s =>
    if !pyTruthy cfg then .ok configdata
    else
      match cfg with
      | .dict d => .ok (dictSet configdata s (.dict d))
      | _ => .error ("Invalid config options for Markdown Extension '" ++ s ++ "'.")
  | _ => .error ("'" ++ pyStr ext ++ "' is not a valid Markdown Extension name.")

/-- The list-shaped loop of `MarkdownExtensions.run_validation`.  Returns the
post-call raw items (one-item dict entries are emptied by `popitem` as soon as
they are processed, even when a later check fails), the accumulated
`configdata` and extension names, and the error if one was raised.  The
`popitem` on an empty dict entry raises an uncaught `KeyError`, modelled as an
error. -/
def mdxList (configdata : List (String × Value)) (exts : List String) :
    List Value → List Value × List (String × Value) × List String × Option String
  | [] => ([], configdata, exts, Option.none)
  | item :: rest =>
    match item with
    | .dict d =>
      if d.length > 1 then
        (Value.dict d :: rest, configdata, exts,
          some "Invalid Markdown Extensions configuration")
      else
        match popLast d with
        | Option.none =>
          (Value.dict d :: rest, configdata, exts,
            some "KeyError: 'popitem(): dictionary is empty'")
        | some ((k, cfg), d') =>
          match validateExtCfg configdata (.str k) cfg with
          | .error e => (Value.dict d' :: rest, configdata, exts, some e)
          | .ok cd' =>
            let (rest', cd'', exts', err) := mdxList cd' (exts ++ [k]) rest
            (Value.dict d' :: rest', cd'', exts', err)
    | .str s =>
      let (rest', cd', exts', err) := mdxList configdata (exts ++ [s]) rest
      (Value.str s :: rest', cd', exts', err)
    | other =>
      (other :: rest, configdata, exts, some "Invalid Markdown Extensions configuration")

/-- The dict-shaped loop of `MarkdownExtensions.run_validation` (reads the raw
dict without modifying it). -/
def mdxDict (configdata : List (String × Value)) (exts : List String) :
    List (String × Value) → List (String × Value) × List String × Option String
  | [] => (configdata, exts, Option.none)
  | (k, cfg) :: rest =>
    match validateExtCfg configdata (.str k) cfg with
    | .error e => (configdata, exts, some e)
    | .ok cd' => mdxDict cd' (exts ++ [k]) rest

/-- The `md.registerExtensions` loop: first extension the collaborator rejects
produces the failure (the traceback text of the real message is omitted). -/
def registerAll (registerOk : String → Bool) : List String → Option String
  | [] => Option.none
  | e :: rest =>
    if registerOk e then registerAll registerOk rest
    else some ("Failed to load extension '" ++ e ++ "'.")

/-- `MarkdownExtensions.run_validation`: returns the post-call raw value and
either the extension list (with the final `configdata`) or the error. -/
def mdxRunValidation (builtins : List String) (registerOk : String → Bool)
    (value : Value) : Value × Except String (List String × List (String × Value)) :=
  match value with
  | .list items =>
    let (items', cd, exts, err) := mdxList [] [] items
    let raw' := Value.list items'
    match err with
    | some e => (raw', .error e)
    | Option.none =>
      let extensions := reduceList (builtins ++ exts)
      match registerAll registerOk extensions with
      | some e => (raw', .error e)
      | Option.none => (raw', .ok (extensions, cd))
  | .dict d =>
    let (cd, exts, err) := mdxDict [] [] d
    match err with
    | some e => (Value.dict d, .error e)
    | Option.none =>
      let extensions := reduceList (builtins ++ exts)
      match registerAll registerOk extensions with
      | some e => (Value.dict d, .error e)
      | Option.none => (Value.dict d, .ok (extensions, cd))
  | other => (other, .error "Invalid Markdown Extensions configuration")

/-- The list-shaped loop of `Plugins.run_validation` (the same `popitem`
pattern; `load` abstracts `Plugins.load_plugin`, which does not touch the raw
document). -/
def pluginsList (load : Value → Value → Except String Unit) :
    List Value → List Value × Option String
  | [] => ([], Option.none)
  | item :: rest =>
    match item with
    | .dict d =>
      if d.length > 1 then
        (Value.dict d :: rest, some "Invalid Plugins configuration")
      else
        match popLast d with
        | Option.none =>
          (Value.dict d :: rest, some "KeyError: 'popitem(): dictionary is empty'")
        | some ((name, cfg), d') =>
          match load (.str name) cfg with
          | .error e => (Value.dict d' :: rest, some e)
          | .ok _ =>
            let (rest', err) := pluginsList load rest
            (Value.dict d' :: rest', err)
    | other =>
      match load other (.dict []) with
      | .error e => (other :: rest, some e)
      | .ok _ =>
        let (rest', err) := pluginsList load rest
        (other :: rest', err)

/-- `Plugins.run_validation`: returns the post-call raw value and the overall
outcome (the constructed `PluginCollection` itself is outside the raw
document and not modelled). -/
def pluginsRunValidation (load : Value → Value → Except String Unit)
    (value : Value) : Value × Except String Unit :=
  match value with
  | .dict d =>
    let rec go : List (String × Value) → Except String Unit
      | [] => .ok ()
      | (name, cfg) :: rest =>
        match load (.str name) cfg with
        | .error e => .error e
        | .ok _ => go rest
    (Value.dict d, go d)
  | .list items =>
    let (items', err) := pluginsList load items
    (Value.list items',
      match err with
      | some e => .error e
      | Option.none => .ok ())
  | other => (other, .error "Invalid Plugins configuration. Expected a list or dict.")

/-- C4 (counterexample): the claim says the value-validation phase leaves the
raw document unmodified; but `MarkdownExtensions.run_validation` on the raw
list `[{"toc": None}]` pops the single entry out of the dict in place: after
the (successful) call the raw value is `[{}]`, not `[{"toc": None}]`. -/
theorem c4_counterexample :
    (mdxRunValidation [] (fun _ => true) (.list [.dict [("toc", .none)]])).1
        = .list [.dict []]
      ∧ (mdxRunValidation [] (fun _ => true) (.list [.dict [("toc", .none)]])).1
        ≠ .list [.dict [("toc", .none)]]
      ∧ (mdxRunValidation [] (fun _ => true) (.list [.dict [("toc", .none)]])).2
        = .ok (["toc"], []) := by
  refine ⟨rfl, ?_, rfl⟩
  intro h
  rw [show (mdxRunValidation [] (fun _ => true) (.list [.dict [("toc", .none)]])).1
      = .list [.dict []] from rfl] at h
  simp at h

/-- C4 (amended): the raw document is rewritten by the pre-validation phase
*and additionally* by `MarkdownExtensions.run_validation` and
`Plugins.run_validation` on list raw values: each one-item dict entry they
process is emptied in place by `popitem`.  Raw dict values, and list entries
that are plain strings, are left unmodified. -/
theorem c4_claim (builtins : List String) (registerOk : String → Bool)
    (load : Value → Value → Except String Unit) (k : String) (v : Value)
    (rest : List Value) (d : List (String × Value)) :
    (∃ rest', (mdxRunValidation builtins registerOk
        (.list (.dict [(k, v)] :: rest))).1 = .list (.dict [] :: rest'))
      ∧ (∃ rest', (pluginsRunValidation load
        (.list (.dict [(k, v)] :: rest))).1 = .list (.dict [] :: rest'))
      ∧ (mdxRunValidation builtins registerOk (.dict d)).1 = .dict d
      ∧ (pluginsRunValidation load (.dict d)).1 = .dict d := by
  refine ⟨?_, ?_, ?_, ?_⟩
  · simp only [mdxRunValidation, mdxList, popLast]
    cases hve : validateExtCfg [] (.str k) v with
    | error e => exact ⟨rest, by simp [hve]⟩
    | ok cd' =>
      rcases hsplit : mdxList cd' [k] rest with ⟨rest', cd'', exts', err⟩
      refine ⟨rest', ?_⟩
      simp only [hve, List.nil_append, hsplit]
      cases err with
      | some e => simp
      | none =>
        cases hreg : registerAll registerOk (reduceList (builtins ++ exts')) with
        | some e => simp [hreg]
        | none => simp [hreg]
  · simp only [pluginsRunValidation, pluginsList, popLast]
    cases hl : load (.str k) v with
    | error e => exact ⟨rest, by simp [hl]⟩
    | ok u =>
      rcases hsplit : pluginsList load rest with ⟨rest', err⟩
      exact ⟨rest', by simp [hl, hsplit]⟩
  · simp only [mdxRunValidation]
    rcases hsplit : mdxDict [] [] d with ⟨cd, exts', err⟩
    simp only [hsplit]
    cases err with
    | some e => simp
    | none =>
      cases hreg : registerAll registerOk (reduceList (builtins ++ exts')) with
      | some e => simp [hreg]
      | none => simp [hreg]
  · rfl

/-- C4 (witness for the amended theorem): the concrete raw list
`[{"toc": None}]` under both options, and an untouched raw dict. -/
theorem c4_witness :
    (∃ rest', (mdxRunValidation [] (fun _ => true)
        (.list (.dict [("toc", .none)] :: []))).1 = .list (.dict [] :: rest'))
      ∧ (∃ rest', (pluginsRunValidation (fun _ _ => .ok ())
        (.list (.dict [("toc", .none)] :: []))).1 = .list (.dict [] :: rest'))
      ∧ (mdxRunValidation [] (fun _ => true) (.dict [("toc", .none)])).1
        = .dict [("toc", .none)]
      ∧ (pluginsRunValidation (fun _ _ => .ok ()) (.dict [("toc", .none)])).1
        = .dict [("toc", .none)] :=
  c4_claim [] (fun _ => true) (fun _ _ => .ok ()) "toc" .none [] [("toc", .none)]

/-! ## POSIX path helpers (`os.path` on the module's platform)

`FilesystemObject` resolves paths with `os.path.dirname`, `os.path.isabs`,
`os.path.join` and `os.path.abspath`.  These are faithful embeddings of the
POSIX implementations (`posixpath`), operating on character lists; `abspath`
takes the process working directory as an explicit parameter. -/

/-- `os.path.isabs`. -/
def isabsChars (p : List Char) : Bool := p.head? = some '/'

/-- `os.path.join(a, b)` (two arguments, as the module uses it). -/
def joinChars (a b : List Char) : List Char :=
  if isabsChars b then b
  else if a = [] ∨ a.getLast? = some '/' then a ++ b
  else a ++ '/' :: b

/-- The components of a path, split on `'/'`. -/
def splitSlash : List Char → List (List Char) := splitChar '/'

/-- `'/'.join(comps)`. -/
def joinSlash : List (List Char) → List Char
  | [] => []
  | [c] => c
  | c :: cs => c ++ '/' :: joinSlash cs

/-- The single-dot component. -/
def dotC : List Char := ['.']

/-- The double-dot component. -/
def ddotC : List Char := ['.', '.']

/-- The component loop of `posixpath.normpath`: skip empty and `'.'`
components; append a component unless it is `'..'` arriving at an absolute
root or cancelling a previous real component.  The accumulator keeps the
pending components in reverse. -/
def normAux (abs : Bool) (acc : List (List Char)) : List (List Char) → List (List Char)
  | [] => acc.reverse
  | comp :: rest =>
    if comp = [] ∨ comp = dotC then normAux abs acc rest
    else if comp ≠ ddotC ∨ (abs = false ∧ acc = []) ∨ acc.head? = some ddotC then
      normAux abs (comp :: acc) rest
    else
      match acc with
      | [] => normAux abs [] rest
      | _ :: acc' => normAux abs acc' rest

/-- `posixpath.normpath`. -/
def normpathChars (p : List Char) : List Char :=
  if p = [] then dotC
  else
    let abs := isabsChars p
    let slashes2 := p.take 2 = ['/', '/'] ∧ ¬p.take 3 = ['/', '/', '/']
    let comps := normAux abs [] (splitSlash p)
    let joined := joinSlash comps
    let out := (if abs then (if slashes2 then ['/', '/'] else ['/']) else []) ++ joined
    if out = [] then dotC else out

/-- `posixpath.abspath(p)` with the working directory explicit. -/
def abspathChars (cwd p : List Char) : List Char :=
  normpathChars (if isabsChars p then p else joinChars cwd p)

/-- `posixpath.dirname`. -/
def dirnameChars (p : List Char) : List Char :=
  let head := (p.reverse.dropWhile (· ≠ '/')).reverse
  if head ≠ [] ∧ ¬head.all (· = '/') then (head.reverse.dropWhile (· = '/')).reverse
  else head

/-! ## `FilesystemObject` (`Dir`, `File`)

    def pre_validation(self, config, key_name):
        self.config_dir = (
            os.path.dirname(config.config_file_path) if config.config_file_path else None
        )

    def run_validation(self, value):
        value = super().run_validation(value)          # Type(str) check
        if self.config_dir and not os.path.isabs(value):
            value = os.path.join(self.config_dir, value)
        if self.exists and not self.existence_test(value):
            raise ValidationError(f"The path '{value}' isn't an existing {self.name}.")
        return os.path.abspath(value)

The existence test (`os.path.exists` / `isdir` / `isfile`) is an external
filesystem collaborator and is a parameter. -/

/-- A `FilesystemObject` option: the `exists` flag, the kind name used in its
error message, and the injected existence test. -/
structure FsOpt where
  existsFlag : Bool
  kindName : String
  test : String → Bool

/-- `FilesystemObject.pre_validation`: the captured `config_dir`. -/
def fsPreValidation (configFilePath : Option String) : Option String :=
  match configFilePath with
  | some p => if p ≠ "" then some (String.mk (dirnameChars p.data)) else Option.none
  | Option.none => Option.none

/-- `FilesystemObject.run_validation` (with `cwd` the process working
directory used by `os.path.abspath`). -/
def fsRunValidation (o : FsOpt) (configDir : Option String) (cwd : String)
    (value : Value) : Except String Value :=
  match value with
  | .str s =>
    let sc := s.data
    let s1 : List Char :=
      match configDir with
      | some d => if d ≠ "" ∧ !isabsChars sc then joinChars d.data sc else sc
      | Option.none => sc
    if o.existsFlag ∧ !o.test (String.mk s1) then
      .error ("The path '" ++ String.mk s1 ++ "' isn't an existing " ++ o.kindName ++ ".")
    else .ok (.str (String.mk (abspathChars cwd.data s1)))
  | v => .error ("Expected type: <class 'str'> but received: " ++ pyType v)

/-! ### Properties of the POSIX path helpers -/

/-- Splitting never produces an empty group list. -/
theorem splitChar_ne_nil (sep : Char) (l : List Char) : splitChar sep l ≠ [] := by
  induction l with
  | nil => simp [splitChar]
  | cons c rest ih =>
    by_cases h : c = sep
    · simp [splitChar, h]
    · simp only [splitChar, if_neg h]
      cases hs : splitChar sep rest with
      | nil => simp
      | cons g gs => simp

/-- No group produced by splitting contains the separator. -/
theorem splitChar_no_sep (sep : Char) (l : List Char) :
    ∀ c ∈ splitChar sep l, sep ∉ c := by
  induction l with
  | nil => intro c hc; simp [splitChar] at hc; simp [hc]
  | cons x rest ih =>
    intro c hc
    by_cases h : x = sep
    · simp only [splitChar, if_pos h] at hc
      rcases List.mem_cons.mp hc with h' | h'
      · simp [h']
      · exact ih c h'
    · simp only [splitChar, if_neg h] at hc
      cases hs : splitChar sep rest with
      | nil => exact absurd hs (splitChar_ne_nil sep rest)
      | cons g gs =>
        rw [hs] at hc
        rcases List.mem_cons.mp hc with h' | h'
        · subst h'
          intro hmem
          rcases List.mem_cons.mp hmem with h'' | h''
          · exact h h''.symm
          · exact ih g (hs ▸ List.mem_cons_self _ _) h''
        · exact ih c (hs ▸ List.mem_cons_of_mem _ h')

/-- Splitting a separator-free list yields that single group. -/
theorem splitChar_of_no_sep (sep : Char) (c : List Char) (h : sep ∉ c) :
    splitChar sep c = [c] := by
  induction c with
  | nil => rfl
  | cons x rest ih =>
    have hx : x ≠ sep := fun hx => h (hx ▸ List.mem_cons_self _ _)
    have hrest : sep ∉ rest := fun hr => h (List.mem_cons_of_mem _ hr)
    simp only [splitChar, if_neg hx, ih hrest]

/-- Splitting distributes over a separator-free group followed by a
separator. -/
theorem splitChar_append (sep : Char) (c r : List Char) (h : sep ∉ c) :
    splitChar sep (c ++ sep :: r) = c :: splitChar sep r := by
  induction c with
  | nil => simp [splitChar]
  | cons x rest ih =>
    have hx : x ≠ sep := fun hx => h (hx ▸ List.mem_cons_self _ _)
    have hrest : sep ∉ rest := fun hr => h (List.mem_cons_of_mem _ hr)
    simp only [List.cons_append, splitChar, if_neg hx]
    rw [show rest.append (sep :: r) = rest ++ sep :: r from rfl, ih hrest]

/-- Splitting on `'/'` inverts `'/'.join` on nonempty, slash-free groups. -/
theorem splitSlash_joinSlash (cs : List (List Char))
    (hns : ∀ c ∈ cs, '/' ∉ c) (hne : cs ≠ []) :
    splitSlash (joinSlash cs) = cs := by
  induction cs with
  | nil => exact absurd rfl hne
  | cons c cs' ih =>
    cases cs' with
    | nil => exact splitChar_of_no_sep '/' c (hns c (List.mem_cons_self _ _))
    | cons c2 cs'' =>
      have h1 : '/' ∉ c := hns c (List.mem_cons_self _ _)
      have h2 : ∀ x ∈ c2 :: cs'', '/' ∉ x := fun x hx => hns x (List.mem_cons_of_mem _ hx)
      show splitSlash (c ++ '/' :: joinSlash (c2 :: cs'')) = c :: c2 :: cs''
      rw [show splitSlash (c ++ '/' :: joinSlash (c2 :: cs''))
          = splitChar '/' (c ++ '/' :: joinSlash (c2 :: cs'')) from rfl,
        splitChar_append '/' c _ h1]
      exact congrArg _ (ih h2 (by simp))

/-- A component is *clean* when the absolute-path normalization loop passes it
through untouched: nonempty, not `'.'`, not `'..'`, and slash-free. -/
def CleanComp (c : List Char) : Prop :=
  c ≠ [] ∧ c ≠ dotC ∧ c ≠ ddotC ∧ '/' ∉ c

/-- On an absolute path, the normalization loop only ever emits clean
components. -/
theorem normAux_clean (comps : List (List Char)) :
    ∀ acc, (∀ c ∈ comps, '/' ∉ c) → (∀ c ∈ acc, CleanComp c) →
      ∀ c ∈ normAux true acc comps, CleanComp c := by
  induction comps with
  | nil =>
    intro acc _ hacc c hc
    simp only [normAux, List.mem_reverse] at hc
    exact hacc c hc
  | cons comp rest ih =>
    intro acc hns hacc c hc
    have hcomp : '/' ∉ comp := hns comp (List.mem_cons_self _ _)
    have hrest : ∀ c ∈ rest, '/' ∉ c := fun c hc => hns c (List.mem_cons_of_mem _ hc)
    by_cases h1 : comp = [] ∨ comp = dotC
    · simp only [normAux] at hc
      rw [if_pos h1] at hc
      exact ih acc hrest hacc c hc
    · by_cases h2 : comp ≠ ddotC ∨ (true = false ∧ acc = []) ∨ acc.head? = some ddotC
      · simp only [normAux] at hc
        rw [if_neg h1, if_pos h2] at hc
        have hcm : comp ≠ ddotC := by
          rcases h2 with h | h | h
          · exact h
          · exact absurd h.1 (by simp)
          · cases acc with
            | nil => simp at h
            | cons a acc' =>
              have : a = ddotC := by simpa using h
              exact absurd this (hacc a (List.mem_cons_self _ _)).2.2.1
        refine ih (comp :: acc) hrest ?_ c hc
        intro x hx
        rcases List.mem_cons.mp hx with h' | h'
        · subst h'
          exact ⟨fun h => h1 (Or.inl h), fun h => h1 (Or.inr h), hcm, hcomp⟩
        · exact hacc x h'
      · simp only [normAux] at hc
        rw [if_neg h1, if_neg h2] at hc
        cases acc with
        | nil => exact ih [] hrest (by simp) c hc
        | cons a acc' =>
          exact ih acc' hrest (fun x hx => hacc x (List.mem_cons_of_mem _ hx)) c hc

/-- The normalization loop passes a list of clean components through
unchanged (appending them to the pending accumulator). -/
theorem normAux_clean_id (comps : List (List Char)) :
    ∀ (abs : Bool) (acc : List (List Char)), (∀ c ∈ comps, CleanComp c) →
      normAux abs acc comps = acc.reverse ++ comps := by
  induction comps with
  | nil => intro abs acc _; simp [normAux]
  | cons comp rest ih =>
    intro abs acc hcl
    have hc : CleanComp comp := hcl comp (List.mem_cons_self _ _)
    have h1 : ¬(comp = [] ∨ comp = dotC) := by
      rintro (h | h)
      · exact hc.1 h
      · exact hc.2.1 h
    have h2 : comp ≠ ddotC ∨ (abs = false ∧ acc = []) ∨ acc.head? = some ddotC :=
      Or.inl hc.2.2.1
    simp only [normAux]
    rw [if_neg h1, if_pos h2,
      ih abs (comp :: acc) (fun c hc => hcl c (List.mem_cons_of_mem _ hc))]
    simp

/-- `'/'.join` of a group list starts with its first group. -/
theorem joinSlash_cons_eq (c0 : List Char) (cs : List (List Char)) :
    ∃ t, joinSlash (c0 :: cs) = c0 ++ t := by
  cases cs with
  | nil => exact ⟨[], by simp [joinSlash]⟩
  | cons c2 cs' => exact ⟨'/' :: joinSlash (c2 :: cs'), rfl⟩

/-- The head of a clean component is not a slash. -/
theorem cleanComp_head (c : List Char) (hc : CleanComp c) : c.head? ≠ some '/' := by
  cases c with
  | nil => exact absurd rfl hc.1
  | cons x rest =>
    intro h
    have hx : x = '/' := by simpa using h
    exact hc.2.2.2 (hx ▸ List.mem_cons_self _ _)

/-- On an absolute path, `normpath` is the root prefix (one or two slashes)
followed by the join of the cleaned components. -/
theorem normpath_abs_struct (p : List Char) (hp : isabsChars p = true) :
    normpathChars p =
      (if p.take 2 = ['/', '/'] ∧ ¬p.take 3 = ['/', '/', '/'] then ['/', '/'] else ['/'])
        ++ joinSlash (normAux true [] (splitSlash p)) := by
  have hne : p ≠ [] := by
    cases p with
    | nil => simp [isabsChars] at hp
    | cons x rest => simp
  have hout : (if p.take 2 = ['/', '/'] ∧ ¬p.take 3 = ['/', '/', '/']
      then ['/', '/'] else ['/']) ++ joinSlash (normAux true [] (splitSlash p)) ≠ [] := by
    by_cases h : p.take 2 = ['/', '/'] ∧ ¬p.take 3 = ['/', '/', '/'] <;> simp [h]
  simp only [normpathChars, if_neg hne, hp, if_true]
  rw [if_neg hout]

/-- On an absolute path, `normpath` yields an absolute path. -/
theorem normpath_abs (p : List Char) (hp : isabsChars p = true) :
    isabsChars (normpathChars p) = true := by
  rw [normpath_abs_struct p hp]
  by_cases h : p.take 2 = ['/', '/'] ∧ ¬p.take 3 = ['/', '/', '/'] <;>
    simp [h, isabsChars]

/-- On an absolute path, `normpath` is idempotent. -/
theorem normpath_abs_idem (p : List Char) (hp : isabsChars p = true) :
    normpathChars (normpathChars p) = normpathChars p := by
  have hclean : ∀ c ∈ normAux true [] (splitSlash p), CleanComp c :=
    normAux_clean (splitSlash p) [] (splitChar_no_sep '/' p) (by simp)
  rw [normpath_abs_struct p hp]
  cases hcs : normAux true [] (splitSlash p) with
  | nil =>
    by_cases h : p.take 2 = ['/', '/'] ∧ ¬p.take 3 = ['/', '/', '/']
    · rw [if_pos h]; rfl
    · rw [if_neg h]; rfl
  | cons c0 cs' =>
    have hclean' : ∀ c ∈ c0 :: cs', CleanComp c := hcs ▸ hclean
    have hc0 : CleanComp c0 := hclean' c0 (List.mem_cons_self _ _)
    obtain ⟨ch, c0t, hc0e⟩ : ∃ ch c0t, c0 = ch :: c0t := by
      cases c0 with
      | nil => exact absurd rfl hc0.1
      | cons ch c0t => exact ⟨ch, c0t, rfl⟩
    have hch : ch ≠ '/' := by
      intro h
      exact hc0.2.2.2 (hc0e ▸ (h ▸ List.mem_cons_self ch c0t))
    obtain ⟨t, ht⟩ := joinSlash_cons_eq c0 cs'
    have hJ : joinSlash (c0 :: cs') = ch :: (c0t ++ t) := by
      rw [ht, hc0e, List.cons_append]
    have hsplitJ : splitSlash (joinSlash (c0 :: cs')) = c0 :: cs' :=
      splitSlash_joinSlash _ (fun c hc => (hclean' c hc).2.2.2) (by simp)
    have hid : normAux true [] (c0 :: cs') = c0 :: cs' := by
      rw [normAux_clean_id (c0 :: cs') true [] hclean']
      simp
    by_cases h : p.take 2 = ['/', '/'] ∧ ¬p.take 3 = ['/', '/', '/']
    · rw [if_pos h]
      have habs : isabsChars (['/', '/'] ++ joinSlash (c0 :: cs')) = true := rfl
      rw [normpath_abs_struct _ habs]
      have htake : (['/', '/'] ++ joinSlash (c0 :: cs')).take 2 = ['/', '/'] ∧
          ¬(['/', '/'] ++ joinSlash (c0 :: cs')).take 3 = ['/', '/', '/'] := by
        rw [hJ]
        refine ⟨rfl, fun hcontra => ?_⟩
        have : ch = '/' := by simpa using hcontra
        exact hch this
      rw [if_pos htake]
      have hsplit : splitSlash (['/', '/'] ++ joinSlash (c0 :: cs'))
          = [] :: [] :: c0 :: cs' := by
        have e : splitSlash (['/', '/'] ++ joinSlash (c0 :: cs'))
            = [] :: [] :: splitSlash (joinSlash (c0 :: cs')) := rfl
        rw [e, hsplitJ]
      rw [hsplit]
      have hskip : normAux true [] ([] :: [] :: c0 :: cs') = c0 :: cs' := by
        have e : normAux true [] ([] :: [] :: c0 :: cs')
            = normAux true [] (c0 :: cs') := rfl
        rw [e, hid]
      rw [hskip]
    · rw [if_neg h]
      have habs : isabsChars (['/'] ++ joinSlash (c0 :: cs')) = true := rfl
      rw [normpath_abs_struct _ habs]
      have htake : ¬((['/'] ++ joinSlash (c0 :: cs')).take 2 = ['/', '/'] ∧
          ¬(['/'] ++ joinSlash (c0 :: cs')).take 3 = ['/', '/', '/']) := by
        rw [hJ]
        rintro ⟨h1, _⟩
        have : ch = '/' := by simpa using h1
        exact hch this
      rw [if_neg htake]
      have hsplit : splitSlash (['/'] ++ joinSlash (c0 :: cs'))
          = [] :: c0 :: cs' := by
        have e : splitSlash (['/'] ++ joinSlash (c0 :: cs'))
            = [] :: splitSlash (joinSlash (c0 :: cs')) := rfl
        rw [e, hsplitJ]
      rw [hsplit]
      have hskip : normAux true [] ([] :: c0 :: cs') = c0 :: cs' := by
        have e : normAux true [] ([] :: c0 :: cs')
            = normAux true [] (c0 :: cs') := rfl
        rw [e, hid]
      rw [hskip]

/-- The head of a nonempty left factor is the head of the concatenation. -/
theorem head_append_of_ne_nil (a b : List Char) (ha : a ≠ []) :
    (a ++ b).head? = a.head? := by
  cases a with
  | nil => exact absurd rfl ha
  | cons x xs => rfl

/-- Any list splits as the (reversed) dropped part plus the taken part of its
reverse. -/
theorem rev_split (q : Char → Bool) (l : List Char) :
    l = (l.reverse.dropWhile q).reverse ++ (l.reverse.takeWhile q).reverse := by
  conv_lhs => rw [← l.reverse_reverse]
  conv_lhs => rw [← List.takeWhile_append_dropWhile (p := q) (l := l.reverse)]
  rw [List.reverse_append]

/-- `(l.reverse.dropWhile q).reverse` is nonempty as soon as some element of
`l` falsifies `q`. -/
theorem rev_dropWhile_ne_nil (q : Char → Bool) (l : List Char) (c : Char)
    (hc : c ∈ l) (hqc : q c = false) :
    (l.reverse.dropWhile q).reverse ≠ [] := by
  intro h
  have h0 : l.reverse.dropWhile q = [] := by
    have := congrArg List.reverse h
    simpa using this
  have := List.dropWhile_eq_nil_iff.mp h0 c (List.mem_reverse.mpr hc)
  rw [hqc] at this
  exact Bool.noConfusion this

/-- When nonempty, `(l.reverse.dropWhile q).reverse` keeps the head of `l`. -/
theorem rev_dropWhile_head (q : Char → Bool) (l : List Char)
    (hne : (l.reverse.dropWhile q).reverse ≠ []) :
    ((l.reverse.dropWhile q).reverse).head? = l.head? := by
  conv_rhs => rw [rev_split q l]
  exact (head_append_of_ne_nil _ _ hne).symm

/-- `os.path.dirname` of an absolute path is absolute (in particular
nonempty). -/
theorem dirname_abs (p : List Char) (hp : isabsChars p = true) :
    isabsChars (dirnameChars p) = true := by
  have hphead : p.head? = some '/' := by simpa [isabsChars] using hp
  have hmem : ('/' : Char) ∈ p := by
    cases p with
    | nil => simp at hphead
    | cons x rest =>
      have : x = '/' := by simpa using hphead
      subst this
      exact List.mem_cons_self _ _
  have hne : (p.reverse.dropWhile (fun c => decide ¬c = '/')).reverse ≠ [] :=
    rev_dropWhile_ne_nil _ p '/' hmem (by simp)
  have hhead : ((p.reverse.dropWhile (fun c => decide ¬c = '/')).reverse).head?
      = some '/' := by
    rw [rev_dropWhile_head _ p hne, hphead]
  simp only [dirnameChars]
  by_cases hb : (p.reverse.dropWhile (fun c => decide ¬c = '/')).reverse ≠ []
      ∧ ¬((p.reverse.dropWhile (fun c => decide ¬c = '/')).reverse).all (· = '/')
  · rw [if_pos hb]
    obtain ⟨c, hcmem, hcq⟩ :
        ∃ c ∈ (p.reverse.dropWhile (fun c => decide ¬c = '/')).reverse, ¬(c = '/') := by
      by_contra hall
      push_neg at hall
      exact hb.2 (List.all_eq_true.mpr (fun c hc => by simpa using hall c hc))
    have hne2 : (((p.reverse.dropWhile (fun c => decide ¬c = '/')).reverse).reverse.dropWhile
        (fun c => decide (c = '/'))).reverse ≠ [] :=
      rev_dropWhile_ne_nil _ _ c hcmem (by simpa using hcq)
    have := rev_dropWhile_head (fun c => decide (c = '/'))
      ((p.reverse.dropWhile (fun c => decide ¬c = '/')).reverse) hne2
    simp only [isabsChars]
    rw [this, hhead]
    simp
  · rw [if_neg hb]
    simp only [isabsChars]
    rw [hhead]
    simp

/-- `os.path.join` keeps an absolute first argument absolute. -/
theorem join_abs (a b : List Char) (ha : isabsChars a = true) :
    isabsChars (joinChars a b) = true := by
  have hane : a ≠ [] := by
    cases a with
    | nil => simp [isabsChars] at ha
    | cons x xs => simp
  unfold joinChars
  by_cases hb : isabsChars b = true
  · rw [if_pos hb]; exact hb
  · rw [if_neg hb]
    by_cases hc : a = [] ∨ a.getLast? = some '/'
    · rw [if_pos hc]
      simpa [isabsChars, head_append_of_ne_nil a b hane] using ha
    · rw [if_neg hc]
      simpa [isabsChars, head_append_of_ne_nil a ('/' :: b) hane] using ha

/-- With the existence check off, `FilesystemObject.run_validation` on a
string is exactly join-then-abspath. -/
theorem fsRun_eq (o : FsOpt) (ho : o.existsFlag = false) (cd : String)
    (cwd s : String) :
    fsRunValidation o (some cd) cwd (.str s)
      = .ok (.str (String.mk (abspathChars cwd.data
          (if cd ≠ "" ∧ !isabsChars s.data then joinChars cd.data s.data
           else s.data)))) := by
  simp only [fsRunValidation]
  rw [if_neg (by simp [ho])]

/-- C7: for a filesystem-path option bound to a Config whose source-location
identifier is an absolute path (and with the optional existence check off):
validating any string raw value succeeds with an absolute normalized path
(relative raw paths having been joined onto the source location's containing
directory), and re-feeding the produced absolute path yields the identical
value; concretely, `"sub/dir"` relative to `/a/b/mkdocs.yml` normalizes to
`/a/b/sub/dir`. -/
theorem c7_claim (cfgPath : String) (hp : isabsChars cfgPath.data = true)
    (o : FsOpt) (ho : o.existsFlag = false) (cwd s : String) :
    (∃ out : String,
      fsRunValidation o (fsPreValidation (some cfgPath)) cwd (.str s)
          = .ok (.str out)
        ∧ isabsChars out.data = true
        ∧ fsRunValidation o (fsPreValidation (some cfgPath)) cwd (.str out)
          = .ok (.str out))
      ∧ fsRunValidation o (fsPreValidation (some "/a/b/mkdocs.yml")) cwd
          (.str "sub/dir")
        = .ok (.str "/a/b/sub/dir") := by
  constructor
  · have hpne : cfgPath ≠ "" := by
      intro h
      rw [h] at hp
      simp [isabsChars] at hp
    have hpre : fsPreValidation (some cfgPath)
        = some (String.mk (dirnameChars cfgPath.data)) := by
      simp only [fsPreValidation]
      rw [if_pos hpne]
    set d : List Char := dirnameChars cfgPath.data with hd
    have hdabs : isabsChars d = true := dirname_abs cfgPath.data hp
    have hdne : d ≠ [] := by
      cases hdd : d with
      | nil => rw [hdd] at hdabs; simp [isabsChars] at hdabs
      | cons x xs => simp
    have hdne' : String.mk d ≠ "" := by
      intro h
      have : d = [] := congrArg String.data h
      exact hdne this
    rw [hpre]
    set s1 : List Char :=
      if String.mk d ≠ "" ∧ !isabsChars s.data then joinChars d s.data else s.data
      with hs1
    have habs1 : isabsChars s1 = true := by
      by_cases hsa : isabsChars s.data = true
      · rw [hs1, if_neg (by simp [hsa])]
        exact hsa
      · rw [hs1, if_pos ⟨hdne', by simp [hsa]⟩]
        exact join_abs d s.data hdabs
    have hout : fsRunValidation o (some (String.mk d)) cwd (.str s)
        = .ok (.str (String.mk (normpathChars s1))) := by
      rw [fsRun_eq o ho (String.mk d) cwd s]
      have : abspathChars cwd.data
          (if String.mk d ≠ "" ∧ !isabsChars s.data then joinChars d s.data
           else s.data) = normpathChars s1 := by
        rw [← hs1]
        unfold abspathChars
        rw [if_pos habs1]
      rw [this]
    refine ⟨String.mk (normpathChars s1), hout, ?_, ?_⟩
    · exact normpath_abs s1 habs1
    · have habs2 : isabsChars (String.mk (normpathChars s1)).data = true :=
        normpath_abs s1 habs1
      rw [fsRun_eq o ho (String.mk d) cwd (String.mk (normpathChars s1))]
      rw [if_neg (by simp [habs2])]
      have : abspathChars cwd.data (String.mk (normpathChars s1)).data
          = (String.mk (normpathChars s1)).data := by
        show abspathChars cwd.data (normpathChars s1) = normpathChars s1
        unfold abspathChars
        rw [if_pos (normpath_abs s1 habs1)]
        exact normpath_abs_idem s1 habs1
      rw [this]
  · have h1 : fsPreValidation (some "/a/b/mkdocs.yml") = some "/a/b" := rfl
    rw [h1, fsRun_eq o ho "/a/b" cwd "sub/dir"]
    rfl

/-- C7 (witness): the concrete option (a `Dir` with `exists=False`) bound to
the source location `/a/b/mkdocs.yml`. -/
theorem c7_witness :
    (∃ out : String,
      fsRunValidation ⟨false, "directory", fun _ => true⟩
          (fsPreValidation (some "/a/b/mkdocs.yml")) "/cwd" (.str "sub/dir")
          = .ok (.str out)
        ∧ isabsChars out.data = true
        ∧ fsRunValidation ⟨false, "directory", fun _ => true⟩
            (fsPreValidation (some "/a/b/mkdocs.yml")) "/cwd" (.str out)
          = .ok (.str out))
      ∧ fsRunValidation ⟨false, "directory", fun _ => true⟩
          (fsPreValidation (some "/a/b/mkdocs.yml")) "/cwd" (.str "sub/dir")
        = .ok (.str "/a/b/sub/dir") :=
  c7_claim "/a/b/mkdocs.yml" rfl ⟨false, "directory", fun _ => true⟩ rfl
    "/cwd" "sub/dir"

/-! ## `SiteDir.post_validation`

    docs_dir = config['docs_dir']
    site_dir = config['site_dir']
    if (docs_dir + os.sep).startswith(site_dir.rstrip(os.sep) + os.sep):
        raise ValidationError("The 'docs_dir' should not be within the 'site_dir' ...")
    elif (site_dir + os.sep).startswith(docs_dir.rstrip(os.sep) + os.sep):
        raise ValidationError("The 'site_dir' should not be within the 'docs_dir' ...")

(`os.sep` is `'/'`; the inherited `Dir`/`BaseConfigOption.post_validation` is
a no-op.) -/

/-- `s.rstrip('/')`. -/
def rstripSlash (s : String) : String :=
  String.mk (s.data.reverse.dropWhile (· = '/')).reverse

/-- The error raised when `docs_dir` lies inside `site_dir`. -/
def msgDocsInSite (docs site : String) : String :=
  "The 'docs_dir' should not be within the 'site_dir' as this can mean the source files are overwritten by the output or it will be deleted if --clean is passed to mkdocs build. (site_dir: '"
    ++ site ++ "', docs_dir: '" ++ docs ++ "')"

/-- The error raised when `site_dir` lies inside `docs_dir`. -/
def msgSiteInDocs (docs site : String) : String :=
  "The 'site_dir' should not be within the 'docs_dir' as this leads to the build directory being copied into itself and duplicate nested files in the 'site_dir'. (site_dir: '"
    ++ site ++ "', docs_dir: '" ++ docs ++ "')"

/-- `SiteDir.post_validation` over the already-normalized `docs_dir` and
`site_dir` values (`some` is the raised error). -/
def siteDirPostValidation (docs site : String) : Option String :=
  if List.isPrefixOf (rstripSlash site ++ "/").data (docs ++ "/").data then
    some (msgDocsInSite docs site)
  else if List.isPrefixOf (rstripSlash docs ++ "/").data (site ++ "/").data then
    some (msgSiteInDocs docs site)
  else Option.none

/-- C8: the two directories must not contain one another, checked by prefix
comparison on their forms with trailing separators: `docs_dir` inside
`site_dir` fails with the first message, `site_dir` inside `docs_dir` fails
with the complementary one, otherwise the check passes; the two messages are
distinct, and each names both paths.  Concretely, `docs_dir="/x"`,
`site_dir="/x/y"` produces the site-in-docs message, and swapping the values
produces the docs-in-site message. -/
theorem c8_claim (docs site : String) :
    (List.isPrefixOf (rstripSlash site ++ "/").data (docs ++ "/").data = true →
        siteDirPostValidation docs site = some (msgDocsInSite docs site))
      ∧ (List.isPrefixOf (rstripSlash site ++ "/").data (docs ++ "/").data = false →
          List.isPrefixOf (rstripSlash docs ++ "/").data (site ++ "/").data = true →
        siteDirPostValidation docs site = some (msgSiteInDocs docs site))
      ∧ (List.isPrefixOf (rstripSlash site ++ "/").data (docs ++ "/").data = false →
          List.isPrefixOf (rstripSlash docs ++ "/").data (site ++ "/").data = false →
        siteDirPostValidation docs site = Option.none)
      ∧ msgDocsInSite docs site ≠ msgSiteInDocs docs site
      ∧ (∃ a b c, msgDocsInSite docs site = a ++ site ++ b ++ docs ++ c)
      ∧ (∃ a b c, msgSiteInDocs docs site = a ++ site ++ b ++ docs ++ c)
      ∧ siteDirPostValidation "/x" "/x/y" = some (msgSiteInDocs "/x" "/x/y")
      ∧ siteDirPostValidation "/x/y" "/x" = some (msgDocsInSite "/x/y" "/x") := by
  refine ⟨fun h1 => ?_, fun h1 h2 => ?_, fun h1 h2 => ?_, ?_, ?_, ?_, rfl, rfl⟩
  · simp only [siteDirPostValidation]
    rw [if_pos h1]
  · simp only [siteDirPostValidation]
    rw [if_neg (by rw [h1]; simp), if_pos h2]
  · simp only [siteDirPostValidation]
    rw [if_neg (by rw [h1]; simp), if_neg (by rw [h2]; simp)]
  · intro h
    have hlen := congrArg String.length h
    simp only [msgDocsInSite, msgSiteInDocs, String.length_append] at hlen
    have e1 : ("The 'docs_dir' should not be within the 'site_dir' as this can mean the source files are overwritten by the output or it will be deleted if --clean is passed to mkdocs build. (site_dir: '" : String).length = 187 := rfl
    have e2 : ("The 'site_dir' should not be within the 'docs_dir' as this leads to the build directory being copied into itself and duplicate nested files in the 'site_dir'. (site_dir: '" : String).length = 171 := rfl
    rw [e1, e2] at hlen
    omega
  · exact ⟨"The 'docs_dir' should not be within the 'site_dir' as this can mean the source files are overwritten by the output or it will be deleted if --clean is passed to mkdocs build. (site_dir: '",
      "', docs_dir: '", "')", by rfl⟩
  · exact ⟨"The 'site_dir' should not be within the 'docs_dir' as this leads to the build directory being copied into itself and duplicate nested files in the 'site_dir'. (site_dir: '",
      "', docs_dir: '", "')", by rfl⟩

/-- C8 (witness): the branch facts instantiated at `docs_dir="/x"`,
`site_dir="/x/y"`. -/
theorem c8_witness :
    siteDirPostValidation "/x" "/x/y" = some (msgSiteInDocs "/x" "/x/y")
      ∧ msgDocsInSite "/x" "/x/y" ≠ msgSiteInDocs "/x" "/x/y" :=
  ⟨(c8_claim "/x" "/x/y").2.1 rfl rfl, (c8_claim "/x" "/x/y").2.2.2.1⟩

/-! ## `Choice`

    def __init__(self, choices, default=None, **kwargs):
        super().__init__(default=default, **kwargs)
        try:
            length = len(choices)
        except TypeError:
            length = 0
        if not length or isinstance(choices, str):
            raise ValueError(f'Expected iterable of choices, got {choices}')
        if default is not None and default not in choices:
            raise ValueError(f'{default!r} is not one of {choices!r}')
        self.choices = choices

    def run_validation(self, value):
        if value not in self.choices:
            raise ValidationError(f"Expected one of: {self.choices} but received: {value!r}")
        return value
-/

/-- Python `v in container` for the containers a constructed `Choice` can
hold (a list or a dict of allowed values; the string case is rejected at
construction time, so string containment is not modelled). -/
def valueIn (v container : Value) : Bool :=
  match container with
  | .list xs => xs.any (fun x => valueEq x v)
  | .dict d => d.any (fun e => valueEq (.str e.1) v)
  | _ => false

/-- `isinstance(v, str)`. -/
def isStrValue : Value → Bool
  | .str _ => true
  | _ => false

/-- `len(choices)` with the constructor's `except TypeError: length = 0`. -/
def choiceLen (choices : Value) : Nat :=
  match pyLen choices with
  | some n => n
  | Option.none => 0

/-- A constructed `Choice` option. -/
structure ChoiceOpt where
  choices : Value
  default : Value

/-- `Choice.__init__`; `.error` models the constructor's `ValueError`. -/
def mkChoice (choices : Value) (default : Value) : Except String ChoiceOpt :=
  if choiceLen choices = 0 ∨ isStrValue choices = true then
    .error ("Expected iterable of choices, got " ++ pyStr choices)
  else
    match default with
    | .none => .ok ⟨choices, .none⟩
    | d =>
      if !valueIn d choices then
        .error (pyRepr d ++ " is not one of " ++ pyRepr choices)
      else .ok ⟨choices, d⟩

/-- `Choice.run_validation`. -/
def choiceRunValidation (o : ChoiceOpt) (value : Value) : Except String Value :=
  if !valueIn value o.choices then
    .error ("Expected one of: " ++ pyStr o.choices ++ " but received: " ++ pyRepr value)
  else .ok value

/-- C9: `Choice` construction fails when the collection is empty (or unsized)
or is a string, and when a non-`None` default is not a member of a
well-formed collection; validation fails exactly on non-members, with an
error naming the allowed collection and the offending value, and returns
members unchanged.  Concretely, `Choice(["a","b"], default="a")` constructs,
accepts `"b"`, and rejects `"c"` naming `['a', 'b']` and `'c'`. -/
theorem c9_claim (choices default v : Value) (o : ChoiceOpt) :
    (choiceLen choices = 0 →
      mkChoice choices default
        = .error ("Expected iterable of choices, got " ++ pyStr choices))
      ∧ (∀ s, mkChoice (.str s) default
          = .error ("Expected iterable of choices, got " ++ s))
      ∧ (default ≠ .none → valueIn default choices = false →
          choiceLen choices ≠ 0 → isStrValue choices = false →
        mkChoice choices default
          = .error (pyRepr default ++ " is not one of " ++ pyRepr choices))
      ∧ (valueIn v o.choices = false →
        choiceRunValidation o v
          = .error ("Expected one of: " ++ pyStr o.choices
              ++ " but received: " ++ pyRepr v))
      ∧ (valueIn v o.choices = true → choiceRunValidation o v = .ok v)
      ∧ mkChoice (.list [.str "a", .str "b"]) (.str "a")
        = .ok ⟨.list [.str "a", .str "b"], .str "a"⟩
      ∧ choiceRunValidation ⟨.list [.str "a", .str "b"], .str "a"⟩ (.str "b")
        = .ok (.str "b")
      ∧ choiceRunValidation ⟨.list [.str "a", .str "b"], .str "a"⟩ (.str "c")
        = .error "Expected one of: ['a', 'b'] but received: 'c'" := by
  refine ⟨fun hlen => ?_, fun s => ?_, fun hd hmem hlen hstr => ?_,
    fun hmem => ?_, fun hmem => ?_, by rfl, by rfl, by rfl⟩
  · simp only [mkChoice]
    rw [if_pos (Or.inl hlen)]
  · simp only [mkChoice]
    rw [if_pos (show choiceLen (.str s) = 0 ∨ isStrValue (.str s) = true
      from Or.inr rfl)]
    rfl
  · simp only [mkChoice]
    rw [if_neg (by rw [hstr]; simp [hlen])]
    cases default with
    | none => exact absurd rfl hd
    | bool b => rw [if_pos (by rw [hmem]; rfl)]
    | int n => rw [if_pos (by rw [hmem]; rfl)]
    | str s => rw [if_pos (by rw [hmem]; rfl)]
    | list xs => rw [if_pos (by rw [hmem]; rfl)]
    | dict dd => rw [if_pos (by rw [hmem]; rfl)]
  · simp only [choiceRunValidation]
    rw [if_pos (by rw [hmem]; rfl)]
  · simp only [choiceRunValidation]
    rw [if_neg (by rw [hmem]; simp)]

/-- C9 (witness): the branch facts at the concrete option
`Choice(["a","b"], default="a")` and at the empty and string collections. -/
theorem c9_witness :
    mkChoice (.list []) (.str "a")
        = .error ("Expected iterable of choices, got " ++ pyStr (.list []))
      ∧ mkChoice (.str "ab") (.str "a")
        = .error ("Expected iterable of choices, got " ++ "ab")
      ∧ mkChoice (.list [.str "a", .str "b"]) (.str "c")
        = .error (pyRepr (.str "c") ++ " is not one of "
            ++ pyRepr (.list [.str "a", .str "b"]))
      ∧ choiceRunValidation ⟨.list [.str "a", .str "b"], .str "a"⟩ (.str "c")
        = .error ("Expected one of: " ++ pyStr (.list [.str "a", .str "b"])
            ++ " but received: " ++ pyRepr (.str "c"))
      ∧ choiceRunValidation ⟨.list [.str "a", .str "b"], .str "a"⟩ (.str "b")
        = .ok (.str "b") :=
  ⟨(c9_claim (.list []) (.str "a") .none ⟨.none, .none⟩).1 rfl,
   (c9_claim .none (.str "a") .none ⟨.none, .none⟩).2.1 "ab",
   (c9_claim (.list [.str "a", .str "b"]) (.str "c") .none ⟨.none, .none⟩).2.2.1
     (fun h => Value.noConfusion h) (by rfl) (fun h => Nat.noConfusion h) rfl,
   (c9_claim .none .none (.str "c") ⟨.list [.str "a", .str "b"], .str "a"⟩).2.2.2.1
     (by rfl),
   (c9_claim .none .none (.str "b") ⟨.list [.str "a", .str "b"], .str "a"⟩).2.2.2.2.1
     (by rfl)⟩

/-! ## `Nav`

    def run_validation(self, value, *, top=True):
        if isinstance(value, list):
            for subitem in value:
                self._validate_nav_item(subitem)
            if top and not value:
                value = None
        elif isinstance(value, dict) and value and not top:
            self.warnings.append(f"Expected nav to be a list, got {self._repr_item(value)}")
            for subitem in value.values():
                self.run_validation(subitem, top=False)
        elif isinstance(value, str) and not top:
            pass
        else:
            raise ValidationError(f"Expected nav to be a list, got {self._repr_item(value)}")
        return value

    def _validate_nav_item(self, value):
        ... (strings pass; dicts must have exactly one entry, whose value is
        recursively validated with top=False; anything else is an error)

The embedding returns the value together with the warnings appended during
the call (warnings appended before an error is raised later in the traversal
are not observable in the `Except` encoding; the claims here only concern
successful runs and the raised errors). -/

/-- `tuple(value.keys())` as Python prints it. -/
def tupleKeysRepr (keys : List String) : String :=
  match keys with
  | [k] => "('" ++ k ++ "',)"
  | _ => "(" ++ String.intercalate ", " (keys.map (fun k => "'" ++ k ++ "'")) ++ ")"

/-- `Nav._repr_item`. -/
def reprItem (v : Value) : String :=
  match v with
  | .dict d =>
    if d.isEmpty then "a dict: " ++ pyRepr v
    else "dict with keys " ++ tupleKeysRepr (d.map Prod.fst)
  | .str s => pyRepr (.str s)
  | .none => pyRepr .none
  | .bool b => "a bool: " ++ pyRepr (.bool b)
  | .int n => "a int: " ++ pyRepr (.int n)
  | .list xs => "a list: " ++ pyRepr (.list xs)

mutual
/-- `Nav.run_validation(value, top=...)`: the returned value plus the warnings
appended during the call. -/
def navRun (top : Bool) : Value → Except String (Value × List String)
  | .list xs =>
    match navItems xs with
    | .error e => .error e
    | .ok w => if top ∧ xs.isEmpty then .ok (.none, w) else .ok (.list xs, w)
  | .dict d =>
    if ¬d.isEmpty = true ∧ top = false then
      match navVals d with
      | .error e => .error e
      | .ok w =>
        .ok (.dict d, ("Expected nav to be a list, got " ++ reprItem (.dict d)) :: w)
    else .error ("Expected nav to be a list, got " ++ reprItem (.dict d))
  | .str s =>
    if top = false then .ok (.str s, [])
    else .error ("Expected nav to be a list, got " ++ reprItem (.str s))
  | v => .error ("Expected nav to be a list, got " ++ reprItem v)

/-- The `_validate_nav_item` loop over a raw list's items. -/
def navItems : List Value → Except String (List String)
  | [] => .ok []
  | x :: xs =>
    match navItem x with
    | .error e => .error e
    | .ok w =>
      match navItems xs with
      | .error e => .error e
      | .ok w' => .ok (w ++ w')

/-- `Nav._validate_nav_item`. -/
def navItem : Value → Except String (List String)
  | .str _ => .ok []
  | .dict d =>
    if d.length ≠ 1 then
      .error ("Expected nav item to be a dict of size 1, got " ++ reprItem (.dict d))
    else
      match navVals d with
      | .error e => .error e
      | .ok w => .ok w
  | v => .error ("Expected nav item to be a string or dict, got " ++ reprItem v)

/-- Recursive validation (`top=False`) of each value of a dict. -/
def navVals : List (String × Value) → Except String (List String)
  | [] => .ok []
  | (_, v) :: rest =>
    match navRun false v with
    | .error e => .error e
    | .ok (_, w) =>
      match navVals rest with
      | .error e => .error e
      | .ok w' => .ok (w ++ w')
end

/-- C10: `Nav.run_validation` at the top level turns an empty raw list into
`None` (the empty navigation normalizes to "no value"), while a non-empty
top-level list whose items all validate is returned as the same list. -/
theorem c10_claim (xs : List Value) (w : List String)
    (hne : xs ≠ []) (hok : navItems xs = .ok w) :
    navRun true (.list []) = .ok (.none, [])
      ∧ navRun true (.list xs) = .ok (.list xs, w) := by
  constructor
  · rfl
  · cases xs with
    | nil => exact absurd rfl hne
    | cons x rest =>
      simp only [navRun, hok]
      simp

/-- C10 (witness): the empty navigation and the one-page navigation
`["index.md"]`. -/
theorem c10_witness :
    navRun true (.list []) = .ok (.none, [])
      ∧ navRun true (.list [.str "index.md"]) = .ok (.list [.str "index.md"], []) :=
  c10_claim [.str "index.md"] [] (by simp) rfl
